import Mathlib

/-
Verification of the ArX_mini agent-orchestration core against its specification.
The Python sources embedded here are src/textGen/memory.py, src/textGen/rag.py
and src/agents/agentgen.py. Machine integers are Nat (Python string lengths and
indices are nonnegative), fallible reads are Except, external LLM calls are
abstracted into oracle parameters, and the iteration loops are given explicit
fuel or structural recursion mirroring the Python control flow.
-/

namespace ArxMini

/-! ## Memory (src/textGen/memory.py) -/

/-- An interaction record stored in short-term memory (memory.py lines 80-85):
fields system, user, assistant and the timestamp string. -/
structure Interaction where
  system : String
  user : String
  assistant : String
  timestamp : String
deriving DecidableEq

/-- Token-proxy size of one interaction: len(user) + len(assistant)
(memory.py line 88). -/
def interactionSize (e : Interaction) : Nat :=
  e.user.length + e.assistant.length

/-- Total size metric of a short-term store: the sum of interactionSize over
its entries (memory.py line 88). -/
def totalTokens (l : List Interaction) : Nat :=
  (l.map interactionSize).sum

/-- The eviction loop of save_short_term (memory.py lines 89-91): while the
total exceeds the limit and the list is nonempty, pop the oldest (front)
entry. The Python code updates the running total incrementally; recomputing
the sum at each step is the same function. -/
def trimFront (limit : Nat) : List Interaction → List Interaction
  | [] => []
  | e :: rest =>
    if totalTokens (e :: rest) > limit then trimFront limit rest else e :: rest

/-- The data transformation of save_short_term (memory.py lines 79-95):
append the new interaction, then evict from the front while over the limit. -/
def save_short_term_data (limit : Nat) (stored : List Interaction)
    (e : Interaction) : List Interaction :=
  trimFront limit (stored ++ [e])

/-- Persisted short-term data after a sequence of save_short_term calls,
starting from the list `init` already on disk. -/
def runSaves (limit : Nat) (init : List Interaction)
    (calls : List Interaction) : List Interaction :=
  calls.foldl (save_short_term_data limit) init

/-- The selection loop of retrieve_short_term (memory.py lines 114-124): walk
the reversed stored sequence, append each entry to `selected` while the
running total stays within the limit, and stop at the first entry that would
overflow. -/
def selectRecent (limit : Nat) :
    List Interaction → Nat → List Interaction → List Interaction
  | [], _, selected => selected
  | e :: rest, total, selected =>
    if total + interactionSize e > limit then selected
    else selectRecent limit rest (total + interactionSize e) (selected ++ [e])

/-- retrieve_short_term on already-loaded data (memory.py lines 114-126):
select from newest to oldest, then restore chronological order. -/
def retrieve_short_term_data (limit : Nat) (data : List Interaction) :
    List Interaction :=
  (selectRecent limit data.reverse 0 []).reverse

/-- Failure of a backing-store read: the file is missing (FileNotFoundError)
or holds corrupt JSON (json.JSONDecodeError). -/
inductive ReadError where
  | fileNotFound
  | decodeError
deriving DecidableEq

/-- retrieve_short_term including its read path (memory.py lines 108-126):
loading the short-term file is wrapped in try/except, and a failed read
returns the empty list. -/
def retrieve_short_term (limit : Nat)
    (raw : Except ReadError (List Interaction)) : List Interaction :=
  match raw with
  | Except.error _ => []
  | Except.ok data => retrieve_short_term_data limit data

/-- A long-term insight record (memory.py lines 148-151). -/
structure Insight where
  insight : String
  timestamp : String
deriving DecidableEq

/-- retrieve_long_term (memory.py lines 158-161): the file is opened and
parsed with NO try/except, so a missing or corrupt backing store propagates
the exception to the caller; otherwise the insight field of every entry is
returned. -/
def retrieve_long_term (raw : Except ReadError (List Insight)) :
    Except ReadError (List String) :=
  match raw with
  | Except.error e => Except.error e
  | Except.ok data => Except.ok (data.map Insight.insight)

/-- Python list slice a[-k:] (rag.py line 65, memory.py line 187): for k ≥ 1
it keeps the last min(k, len) elements, but for k = 0 the slice is a[-0:] =
a[0:], the WHOLE list. -/
def pyTakeLast {α : Type} (k : Nat) (l : List α) : List α :=
  if k = 0 then l else l.drop (l.length - k)

/-- Oracle standing for the two LLM calls inside store_long_term_memory
(memory.py lines 215-242): whether the decision step answers yes, and the
insight the extraction step would produce. -/
structure PromotionOracle where
  decision : Bool
  extracted : Insight

/-- In-memory state of a Memory instance: the two persisted sequences and the
internal promotion counter (memory.py lines 34-38). -/
structure MemoryState where
  shortTerm : List Interaction
  longTerm : List Insight
  counter : Nat

/-- store_long_term_memory (memory.py lines 181-244) with its LLM calls
abstracted by the oracle: take the last `interactions` entries of
retrieve_short_term; when there are none, do nothing; otherwise append the
extracted insight exactly when the decision step says yes. -/
def store_long_term_memory (limit interactions : Nat) (st : MemoryState)
    (oracle : PromotionOracle) : MemoryState :=
  let recent := pyTakeLast interactions (retrieve_short_term_data limit st.shortTerm)
  if recent = [] then st
  else if oracle.decision then
    { st with longTerm := st.longTerm ++ [oracle.extracted] }
  else st

/-- save_short_term as a state transition (memory.py lines 67-104): append
and trim the short-term data, increment the counter, and when the counter
reaches long_term_interval invoke the long-term promotion and reset the
counter to zero. The Bool records whether promotion was invoked on this
call. -/
def save_short_term_step (limit interval : Nat) (st : MemoryState)
    (e : Interaction) (oracle : PromotionOracle) : MemoryState × Bool :=
  let data := save_short_term_data limit st.shortTerm e
  if interval ≤ st.counter + 1 then
    ({ store_long_term_memory limit interval
        { shortTerm := data, longTerm := st.longTerm, counter := st.counter + 1 }
        oracle with counter := 0 }, true)
  else
    ({ shortTerm := data, longTerm := st.longTerm, counter := st.counter + 1 }, false)

/-- Memory state after a sequence of save_short_term calls, each call paired
with the promotion oracle for the LLM answers during that call. -/
def run_saves_full (limit interval : Nat) (st : MemoryState)
    (calls : List (Interaction × PromotionOracle)) : MemoryState :=
  calls.foldl (fun s ci => (save_short_term_step limit interval s ci.1 ci.2).1) st

/-- For each save_short_term call in sequence, whether that call invoked the
long-term promotion procedure. -/
def fired_list (limit interval : Nat) :
    MemoryState → List (Interaction × PromotionOracle) → List Bool
  | _, [] => []
  | st, c :: cs =>
    (save_short_term_step limit interval st c.1 c.2).2 ::
      fired_list limit interval (save_short_term_step limit interval st c.1 c.2).1 cs

/-! ## Retrieval (src/textGen/rag.py) -/

/-- Helper for Python str.split() with no argument: accumulate the current
word (reversed) and cut at whitespace, discarding empty pieces. -/
def pySplitAux : List Char → List Char → List String
  | [], cur => if cur = [] then [] else [String.mk cur.reverse]
  | c :: rest, cur =>
    if c.isWhitespace then
      if cur = [] then pySplitAux rest []
      else String.mk cur.reverse :: pySplitAux rest []
    else pySplitAux rest (c :: cur)

/-- Python text.split() with no argument (rag.py line 28): split on runs of
whitespace, with no empty words. -/
def pySplitWhitespace (text : String) : List String :=
  pySplitAux text.toList []

/-- A chunk produced by TextSplitter (rag.py TextChunk): its text and the
chunk_index recorded in its metadata. -/
structure TextChunk where
  text : String
  chunk_index : Nat
deriving DecidableEq

/-- The while loop of TextSplitter.split_text (rag.py lines 30-37) with
explicit fuel bounding the number of iterations: none means the fuel ran out
with the loop still running. Each iteration appends the window
words[i : i + chunk_size] joined by single blanks, with chunk_index the
number of chunks so far, then advances i by chunk_size - chunk_overlap
(Nat subtraction: the Python step is this difference of nonnegative ints,
which is 0 whenever overlap ≥ size). -/
def split_text_loop (chunk_size chunk_overlap : Nat) (words : List String) :
    List TextChunk → Nat → Nat → Option (List TextChunk)
  | chunks, i, 0 => if i < words.length then none else some chunks
  | chunks, i, fuel + 1 =>
    if i < words.length then
      split_text_loop chunk_size chunk_overlap words
        (chunks ++ [⟨" ".intercalate ((words.drop i).take chunk_size), chunks.length⟩])
        (i + (chunk_size - chunk_overlap)) fuel
    else some chunks

/-- TextSplitter.split_text (rag.py lines 26-37), run with fuel equal to the
word count, which suffices whenever the step chunk_size - chunk_overlap is at
least 1 (the loop index then advances by at least one word per iteration). -/
def split_text (chunk_size chunk_overlap : Nat) (text : String) :
    Option (List TextChunk) :=
  split_text_loop chunk_size chunk_overlap (pySplitWhitespace text) [] 0
    (pySplitWhitespace text).length

/-- np.argsort of the similarity scores (rag.py line 65): the indices
0..n-1 ordered so the scores they index are ascending. The particular sort
algorithm is immaterial here; insertion sort is used. -/
def argsortAsc (scores : List ℚ) : List Nat :=
  List.insertionSort (fun i j => scores.getD i 0 ≤ scores.getD j 0)
    (List.range scores.length)

/-- SimpleVectorStore state (rag.py lines 43-45): embeddings is None until
the first add; the embedding type is abstract; chunks holds the stored
texts. -/
structure SimpleVectorStore (E : Type) where
  embeddings : Option (List E)
  chunks : List String

/-- SimpleVectorStore.search (rag.py lines 56-67). The floating-point cosine
similarity of the fixed query embedding against a stored embedding is
abstracted into simf; the control flow — the empty-index early return, the
ascending argsort, the a[-k:] slice, the [::-1] reversal and the per-index
result rows (text, score) — follows the source. -/
def SimpleVectorStore.search {E : Type} (store : SimpleVectorStore E)
    (simf : E → ℚ) (k : Nat) : List (String × ℚ) :=
  match store.embeddings with
  | none => []
  | some embs =>
    let sims := embs.map simf
    let top := (pyTakeLast k (argsortAsc sims)).reverse
    top.map (fun idx => (store.chunks.getD idx "", sims.getD idx 0))

/-! ## Agent loops (src/agents/agentgen.py) -/

/-- The literal termination marker every loop checks for (agentgen.py lines
155, 205, 254). -/
def finalMarker : String := "FINAL RESPONSE:"

/-- Python substring containment: the check `"FINAL RESPONSE:" in response`. -/
def hasFinalMarker (s : String) : Bool :=
  decide (finalMarker.toList <:+: s.toList)

/-- Shared iteration skeleton of base_loop, react_loop and arx_loop
(agentgen.py lines 139-157, 166-207, 215-266): from loop state s, running
response r and iteration index i, with fuel iterations still allowed, run the
body step (returning the iteration's checked response and the state carried
into the next iteration); stop as soon as the response contains the
termination marker, or when the depth is exhausted. Returns the last response
paired with the number of iterations executed. -/
def loop_go {σ : Type} (step : Nat → σ → String × σ) :
    σ → String → Nat → Nat → String × Nat
  | _, r, i, 0 => (r, i)
  | s, _, i, fuel + 1 =>
    if hasFinalMarker (step i s).1 = true then ((step i s).1, i + 1)
    else loop_go step (step i s).2 (step i s).1 (i + 1) fuel

/-- base_loop (agentgen.py lines 133-157): chat i r stands for the
chat_completion call of iteration i (tool selection folded into the stub)
given the previous running response r; the loop starts from response "" and
runs at most max_depth iterations. -/
def base_loop (chat : Nat → String → String) (max_depth : Nat) : String × Nat :=
  loop_go (fun i r => (chat i r, chat i r)) "" "" 0 max_depth

/-- The response base_loop checks on iteration k (0-based) under the stubbed
generator: iteration 0 sees the empty running response. -/
def base_resp (chat : Nat → String → String) : Nat → String
  | 0 => chat 0 ""
  | k + 1 => chat (k + 1) (base_resp chat k)

/-- The running response base_loop holds entering iteration k. -/
def base_state (chat : Nat → String → String) : Nat → String
  | 0 => ""
  | k + 1 => base_resp chat k

/-- One react_loop iteration body (agentgen.py lines 170-200): observation
from the previous response, reflection from the observation, action from
both; the action output is the checked response. -/
def react_step (observe reflect : Nat → String → String)
    (act : Nat → String → String → String) (i : Nat) (r : String) : String :=
  act i (observe i r) (reflect i (observe i r))

/-- react_loop (agentgen.py lines 160-207) with its three chat_completion
calls per iteration stubbed. -/
def react_loop (observe reflect : Nat → String → String)
    (act : Nat → String → String → String) (max_depth : Nat) : String × Nat :=
  loop_go (fun i r => (react_step observe reflect act i r,
    react_step observe reflect act i r)) "" "" 0 max_depth

/-- The response react_loop checks on iteration k under the stubbed
generators. -/
def react_resp (observe reflect : Nat → String → String)
    (act : Nat → String → String → String) : Nat → String
  | 0 => react_step observe reflect act 0 ""
  | k + 1 => react_step observe reflect act (k + 1)
      (react_resp observe reflect act k)

/-- The running response react_loop holds entering iteration k. -/
def react_state (observe reflect : Nat → String → String)
    (act : Nat → String → String → String) : Nat → String
  | 0 => ""
  | k + 1 => react_resp observe reflect act k

/-- Stubs for the per-iteration generator calls of arx_loop (agentgen.py
lines 218-249) and for the input() prompt of the human-in-the-loop step:
planf i is plan(user_prompt); predictf i takes the plan; draftf i the plan
and prediction; critf i the draft and the cumulative feedback; creatf i the
draft and the critique; chatf i all five; feedback i the human reply. -/
structure ArxStubs where
  planf : Nat → String
  predictf : Nat → String → String
  draftf : Nat → String → String → String
  critf : Nat → String → String → String
  creatf : Nat → String → String → String
  chatf : Nat → String → String → String → String → String → String
  feedback : Nat → String

/-- The checked response of one arx_loop iteration (agentgen.py lines
221-249) given the cumulative feedback entering the iteration. -/
def arx_response (st : ArxStubs) (i : Nat) (fb : String) : String :=
  st.chatf i (st.planf i)
    (st.predictf i (st.planf i))
    (st.draftf i (st.planf i) (st.predictf i (st.planf i)))
    (st.critf i (st.draftf i (st.planf i) (st.predictf i (st.planf i))) fb)
    (st.creatf i (st.draftf i (st.planf i) (st.predictf i (st.planf i)))
      (st.critf i (st.draftf i (st.planf i) (st.predictf i (st.planf i))) fb))

/-- Python str.strip(): drop whitespace from both ends. -/
def pyStrip (s : String) : String :=
  String.mk ((s.toList.dropWhile Char.isWhitespace).reverse.dropWhile
    Char.isWhitespace).reverse

/-- The human-feedback step of arx_loop (agentgen.py lines 257-264), reached
only when the loop continues: when human_in_loop is set and the collected
reply is nonempty after stripping, the reply is appended to the cumulative
feedback with its iteration header. The re-run of critique there binds a
local variable that the next iteration recomputes, so it changes no carried
state. -/
def arx_fb_update (st : ArxStubs) (human_in_loop : Bool) (i : Nat)
    (fb : String) : String :=
  if human_in_loop = true ∧ pyStrip (st.feedback i) ≠ "" then
    fb ++ "\nIteration " ++ toString (i + 1) ++ " Feedback: " ++ st.feedback i ++ "\n"
  else fb

/-- arx_loop (agentgen.py lines 210-266) with the generator calls stubbed:
the only state carried between iterations besides the running response is the
cumulative feedback, starting empty. -/
def arx_loop (st : ArxStubs) (human_in_loop : Bool) (max_depth : Nat) :
    String × Nat :=
  loop_go (fun i fb => (arx_response st i fb, arx_fb_update st human_in_loop i fb))
    "" "" 0 max_depth

/-- The cumulative feedback arx_loop holds entering iteration k. -/
def arx_fb (st : ArxStubs) (human_in_loop : Bool) : Nat → String
  | 0 => ""
  | k + 1 => arx_fb_update st human_in_loop k (arx_fb st human_in_loop k)

/-- The response arx_loop checks on iteration k under the stubbed
generators. -/
def arx_resp (st : ArxStubs) (human_in_loop : Bool) (k : Nat) : String :=
  arx_response st k (arx_fb st human_in_loop k)

/-! ## Theorems: memory eviction and retrieval -/

theorem totalTokens_cons (e : Interaction) (l : List Interaction) :
    totalTokens (e :: l) = interactionSize e + totalTokens l := by
  simp [totalTokens]

theorem totalTokens_append (l1 l2 : List Interaction) :
    totalTokens (l1 ++ l2) = totalTokens l1 + totalTokens l2 := by
  simp [totalTokens]

theorem totalTokens_reverse (l : List Interaction) :
    totalTokens l.reverse = totalTokens l := by
  rw [totalTokens, totalTokens, List.map_reverse, List.sum_reverse]

theorem trimFront_le (limit : Nat) (l : List Interaction) :
    totalTokens (trimFront limit l) ≤ limit := by
  induction l with
  | nil => simp [trimFront, totalTokens]
  | cons e rest ih =>
    simp only [trimFront]
    split
    · exact ih
    · omega

theorem trimFront_suffix (limit : Nat) (l : List Interaction) :
    trimFront limit l <:+ l := by
  induction l with
  | nil => simp [trimFront]
  | cons e rest ih =>
    simp only [trimFront]
    split
    · exact ih.trans (List.suffix_cons e rest)
    · exact List.suffix_refl _

theorem suffix_append_right {α : Type} {s t : List α} (h : s <:+ t)
    (u : List α) : s ++ u <:+ t ++ u := by
  obtain ⟨p, hp⟩ := h
  exact ⟨p, by rw [← List.append_assoc, hp]⟩

theorem runSaves_suffix (limit : Nat) (init calls : List Interaction) :
    runSaves limit init calls <:+ init ++ calls := by
  induction calls generalizing init with
  | nil => simp [runSaves]
  | cons c cs ih =>
    have h1 : save_short_term_data limit init c <:+ init ++ [c] :=
      trimFront_suffix _ _
    have h2 : runSaves limit init (c :: cs)
        = runSaves limit (save_short_term_data limit init c) cs := rfl
    have h3 := (ih (save_short_term_data limit init c)).trans
      (suffix_append_right h1 cs)
    rw [h2]
    simpa using h3

theorem runSaves_append_single (limit : Nat) (init calls : List Interaction)
    (e : Interaction) :
    runSaves limit init (calls ++ [e])
      = save_short_term_data limit (runSaves limit init calls) e := by
  simp [runSaves, List.foldl_append]

/-- C1: for every sequence of save_short_term calls, after each call (here:
after the last call of an arbitrary sequence calls ++ [e], starting from any
persisted state init) the sum of len(user) + len(assistant) over the retained
entries is at most short_term_limit, and the retained entries are a suffix of
the full append history init ++ calls ++ [e] — eviction removes only from the
oldest end. -/
theorem save_short_term_invariant (limit : Nat) (init calls : List Interaction)
    (e : Interaction) :
    totalTokens (runSaves limit init (calls ++ [e])) ≤ limit ∧
      runSaves limit init (calls ++ [e]) <:+ init ++ (calls ++ [e]) := by
  constructor
  · rw [runSaves_append_single]
    exact trimFront_le _ _
  · exact runSaves_suffix _ _ _

/-- C10: a single save_short_term call whose new interaction alone exceeds
short_term_limit evicts every entry, the just-saved one included: the
persisted short-term store ends up empty (and the call, a total function
here, completes without raising). -/
theorem oversized_save_empties_store (limit : Nat) (stored : List Interaction)
    (e : Interaction) (h : limit < interactionSize e) :
    save_short_term_data limit stored e = [] := by
  by_contra hne
  have hsuf : save_short_term_data limit stored e <:+ stored ++ [e] :=
    trimFront_suffix _ _
  have hle : totalTokens (save_short_term_data limit stored e) ≤ limit :=
    trimFront_le _ _
  rcases List.eq_nil_or_concat (save_short_term_data limit stored e) with hnil | hcat
  · exact hne hnil
  · obtain ⟨L, b, hLb⟩ := hcat
    obtain ⟨p, hp⟩ := hsuf
    have hp2 : (p ++ L) ++ [b] = stored ++ [e] := by
      rw [List.append_assoc, ← List.concat_eq_append, ← hLb]
      exact hp
    have hb : b = e := by
      have h3 := congrArg List.getLast? hp2
      simpa [List.getLast?_concat] using h3
    have hmem : interactionSize e ∈ (save_short_term_data limit stored e).map interactionSize := by
      rw [hLb, hb]
      simp [List.concat_eq_append]
    have hsum : interactionSize e ≤ totalTokens (save_short_term_data limit stored e) :=
      List.single_le_sum (by simp) _ hmem
    omega

theorem oversized_save_empties_store_witness :
    save_short_term_data 1 [⟨"s", "u", "a", "t"⟩] ⟨"s2", "uu", "aa", "t2"⟩ = [] :=
  oversized_save_empties_store 1 [⟨"s", "u", "a", "t"⟩] ⟨"s2", "uu", "aa", "t2"⟩
    (by decide)

theorem selectRecent_acc (limit : Nat) (rev : List Interaction) :
    ∀ (total : Nat) (sel : List Interaction),
      selectRecent limit rev total sel = sel ++ selectRecent limit rev total [] := by
  induction rev with
  | nil => intro total sel; simp [selectRecent]
  | cons e rest ih =>
    intro total sel
    simp only [selectRecent]
    split
    · simp
    · rw [ih (total + interactionSize e) (sel ++ [e]),
        ih (total + interactionSize e) ([] ++ [e])]
      simp

theorem selectRecent_spec (limit : Nat) (rev : List Interaction) :
    ∀ total : Nat, total ≤ limit →
      ∃ t, rev = selectRecent limit rev total [] ++ t ∧
        total + totalTokens (selectRecent limit rev total []) ≤ limit ∧
        ∀ e t2, t = e :: t2 →
          limit < total + totalTokens (selectRecent limit rev total []) + interactionSize e := by
  induction rev with
  | nil =>
    intro total htot
    refine ⟨[], by simp [selectRecent], ?_, ?_⟩
    · simpa [selectRecent, totalTokens] using htot
    · intro e t2 ht
      exact absurd ht (by simp)
  | cons e rest ih =>
    intro total htot
    by_cases hstop : total + interactionSize e > limit
    · refine ⟨e :: rest, ?_, ?_, ?_⟩
      · simp [selectRecent, hstop]
      · simpa [selectRecent, hstop, totalTokens] using htot
      · intro e2 t2 ht
        have he : e2 = e := by
          have := congrArg (fun l => List.head? l) ht
          simpa using this.symm
        subst he
        simp [selectRecent, hstop, totalTokens]
    · have htot2 : total + interactionSize e ≤ limit := by omega
      obtain ⟨t, ht, hb, hs⟩ := ih (total + interactionSize e) htot2
      have hsel : selectRecent limit (e :: rest) total []
          = e :: selectRecent limit rest (total + interactionSize e) [] := by
        simp only [selectRecent, if_neg hstop]
        rw [selectRecent_acc]
        simp
      refine ⟨t, ?_, ?_, ?_⟩
      · rw [hsel]
        simpa using ht
      · rw [hsel, totalTokens_cons]
        omega
      · intro e2 t2 ht2
        have := hs e2 t2 ht2
        rw [hsel, totalTokens_cons]
        omega

/-- C8: retrieve_short_term returns a contiguous block of entries from the
newest end of the store, in chronological order (data = p ++ result), with
total size at most short_term_limit; and it stops exactly at the first entry,
walking from newest to oldest, that would overflow: the immediately older
entry (the last of p), when there is one, would push the total past the
limit. -/
theorem retrieve_short_term_spec (limit : Nat) (data : List Interaction) :
    ∃ p, data = p ++ retrieve_short_term_data limit data ∧
      totalTokens (retrieve_short_term_data limit data) ≤ limit ∧
      ∀ e p2, p = p2 ++ [e] →
        limit < interactionSize e + totalTokens (retrieve_short_term_data limit data) := by
  obtain ⟨t, ht, hb, hs⟩ := selectRecent_spec limit data.reverse 0 (Nat.zero_le _)
  have hrev : totalTokens (retrieve_short_term_data limit data)
      = totalTokens (selectRecent limit data.reverse 0 []) := by
    rw [retrieve_short_term_data, totalTokens_reverse]
  refine ⟨t.reverse, ?_, ?_, ?_⟩
  · have h2 := congrArg List.reverse ht
    rw [List.reverse_reverse, List.reverse_append] at h2
    exact h2
  · omega
  · intro e p2 hp
    have ht2 : t = e :: p2.reverse := by
      have h3 := congrArg List.reverse hp
      rw [List.reverse_reverse, List.reverse_append] at h3
      simpa using h3
    have := hs e p2.reverse ht2
    omega

/-- C9 counterexample: on the long-term read path a missing backing store
does NOT degrade to an empty collection — retrieve_long_term propagates the
error. -/
theorem retrieve_long_term_raises_counterexample :
    retrieve_long_term (Except.error ReadError.fileNotFound)
        = Except.error ReadError.fileNotFound ∧
      ¬ retrieve_long_term (Except.error ReadError.fileNotFound)
        = Except.ok [] := by
  exact ⟨rfl, fun h => Except.noConfusion h⟩

/-- C9 amended: only the short-term read path degrades to an empty collection
on a missing or corrupt backing store; the long-term read path propagates the
exception. -/
theorem read_failure_semantics (limit : Nat) (err : ReadError) :
    retrieve_short_term limit (Except.error err) = [] ∧
      retrieve_long_term (Except.error err) = Except.error err :=
  ⟨rfl, rfl⟩

/-! ## Theorems: long-term promotion schedule -/

theorem step_counter (limit interval : Nat) (st : MemoryState)
    (e : Interaction) (o : PromotionOracle) :
    (save_short_term_step limit interval st e o).1.counter
      = if interval ≤ st.counter + 1 then 0 else st.counter + 1 := by
  by_cases h : interval ≤ st.counter + 1
  · simp [save_short_term_step, store_long_term_memory, h]
  · simp [save_short_term_step, h]

theorem step_fired (limit interval : Nat) (st : MemoryState)
    (e : Interaction) (o : PromotionOracle) :
    (save_short_term_step limit interval st e o).2
      = decide (interval ≤ st.counter + 1) := by
  by_cases h : interval ≤ st.counter + 1
  · simp [save_short_term_step, h]
  · simp [save_short_term_step, h]

theorem succ_mod_key (N j : Nat) : (j + 1) % N = (j % N + 1) % N := by
  conv_lhs => rw [← Nat.mod_add_div j N]
  rw [Nat.add_right_comm]
  exact Nat.add_mul_mod_self_left (j % N + 1) N (j / N)

theorem mod_succ_eq (N j : Nat) (hN : 1 ≤ N) :
    (if N ≤ j % N + 1 then 0 else j % N + 1) = (j + 1) % N := by
  have hlt : j % N < N := Nat.mod_lt _ (by omega)
  by_cases h : N ≤ j % N + 1
  · have heq : j % N + 1 = N := by omega
    rw [if_pos h, succ_mod_key, heq, Nat.mod_self]
  · have heq : j % N + 1 < N := by omega
    rw [if_neg h, succ_mod_key, Nat.mod_eq_of_lt heq]

theorem fired_decide_eq (N j : Nat) (hN : 1 ≤ N) :
    decide (N ≤ j % N + 1) = decide (N ∣ (j + 1)) := by
  rw [decide_eq_decide]
  have hlt : j % N < N := Nat.mod_lt _ (by omega)
  rw [Nat.dvd_iff_mod_eq_zero, succ_mod_key]
  constructor
  · intro h
    have heq : j % N + 1 = N := by omega
    rw [heq, Nat.mod_self]
  · intro h
    by_contra hcon
    have h2 : j % N + 1 < N := by omega
    rw [Nat.mod_eq_of_lt h2] at h
    omega

theorem run_counter_induction (limit N : Nat) (hN : 1 ≤ N)
    (calls : List (Interaction × PromotionOracle)) :
    ∀ (st : MemoryState) (j : Nat), st.counter = j % N →
      ∀ k, k < calls.length →
        (fired_list limit N st calls).getD k false = decide (N ∣ (j + k + 1)) ∧
        (run_saves_full limit N st (calls.take (k + 1))).counter = (j + k + 1) % N := by
  induction calls with
  | nil =>
    intro st j hst k hk
    simp at hk
  | cons c cs ih =>
    intro st j hst k hk
    have hc : (save_short_term_step limit N st c.1 c.2).1.counter = (j + 1) % N := by
      rw [step_counter, hst]
      exact mod_succ_eq N j hN
    cases k with
    | zero =>
      constructor
      · simp only [fired_list, List.getD_cons_zero]
        rw [step_fired, hst]
        simpa using fired_decide_eq N j hN
      · simp only [List.take_succ_cons, List.take_zero]
        show (run_saves_full limit N st [c]).counter = _
        simp only [run_saves_full, List.foldl_cons, List.foldl_nil]
        simpa using hc
    | succ k2 =>
      have hk2 : k2 < cs.length := by
        simp at hk
        omega
      obtain ⟨h1, h2⟩ := ih (save_short_term_step limit N st c.1 c.2).1 (j + 1) hc k2 hk2
      have harith : j + 1 + k2 + 1 = j + (k2 + 1) + 1 := by omega
      constructor
      · rw [harith] at h1
        simpa [fired_list] using h1
      · rw [harith] at h2
        simp only [List.take_succ_cons]
        show (run_saves_full limit N
          (save_short_term_step limit N st c.1 c.2).1 (cs.take (k2 + 1))).counter = _
        exact h2

/-- C2: with long_term_interval = N ≥ 1, starting from counter 0, the k-th
save_short_term call of any sequence (k counted from 1, here as k+1 with a
0-based index) invokes the long-term promotion procedure exactly when N
divides it — the Nth, 2Nth, 3Nth, ... call and no other — and after that call
the internal counter equals (k+1) mod N, i.e. zero after each firing,
whatever the promotion oracle decided. -/
theorem long_term_promotion_schedule (limit interval : Nat) (st : MemoryState)
    (calls : List (Interaction × PromotionOracle)) (k : Nat)
    (hN : 1 ≤ interval) (h0 : st.counter = 0) (hk : k < calls.length) :
    ((fired_list limit interval st calls).getD k false = true ↔ interval ∣ (k + 1)) ∧
      (run_saves_full limit interval st (calls.take (k + 1))).counter
        = (k + 1) % interval := by
  have h := run_counter_induction limit interval hN calls st 0 (by simp [h0]) k hk
  constructor
  · rw [h.1]
    simp
  · simpa using h.2

theorem long_term_promotion_schedule_witness :
    ((fired_list 10 2 ⟨[], [], 0⟩
        [(⟨"s", "u", "a", "t"⟩, ⟨true, ⟨"i", "t"⟩⟩),
         (⟨"s", "u", "a", "t"⟩, ⟨true, ⟨"i", "t"⟩⟩)]).getD 1 false = true ↔ 2 ∣ 2) ∧
      (run_saves_full 10 2 ⟨[], [], 0⟩
        ([(⟨"s", "u", "a", "t"⟩, ⟨true, ⟨"i", "t"⟩⟩),
          (⟨"s", "u", "a", "t"⟩, ⟨true, ⟨"i", "t"⟩⟩)].take 2)).counter = 2 % 2 :=
  long_term_promotion_schedule 10 2 ⟨[], [], 0⟩
    [(⟨"s", "u", "a", "t"⟩, ⟨true, ⟨"i", "t"⟩⟩),
     (⟨"s", "u", "a", "t"⟩, ⟨true, ⟨"i", "t"⟩⟩)] 1
    (by decide) rfl (by decide)

/-! ## Theorems: chunker -/

/-- C4 counterexample: splitting the text with chunk_size = 3 and
chunk_overlap = 1 does NOT yield exactly the two chunks the claim lists —
the loop condition i < len(words) admits a third, trailing partial window. -/
theorem split_text_two_chunk_counterexample :
    ¬ (split_text 3 1 "w1 w2 w3 w4 w5").map (List.map TextChunk.text)
      = some ["w1 w2 w3", "w3 w4 w5"] := by
  decide

/-- C4 amended: splitting the text with chunk_size = 3 and chunk_overlap = 1
yields exactly the three chunks w1 w2 w3, w3 w4 w5 and w5, in that order: the
window step is 2 and the loop also emits the trailing partial window starting
at word index 4. -/
theorem split_text_window_example :
    split_text 3 1 "w1 w2 w3 w4 w5"
      = some [⟨"w1 w2 w3", 0⟩, ⟨"w3 w4 w5", 1⟩, ⟨"w5", 2⟩] := by
  decide

theorem split_loop_fuel (csize cov : Nat) (words : List String)
    (hstep : 1 ≤ csize - cov) :
    ∀ (fuel : Nat) (chunks : List TextChunk) (i : Nat),
      words.length - i ≤ fuel →
      (split_text_loop csize cov words chunks i fuel).isSome = true := by
  intro fuel
  induction fuel with
  | zero =>
    intro chunks i hi
    have h : ¬ i < words.length := by omega
    simp [split_text_loop, h]
  | succ f ihf =>
    intro chunks i hi
    by_cases h : i < words.length
    · simp only [split_text_loop, if_pos h]
      exact ihf _ _ (by omega)
    · simp [split_text_loop, h]

/-- C5: the code has no validation of chunk_overlap against chunk_size. With
chunk_size = 1 and chunk_overlap = 1 on the one-word text a the window step
is 0 and the while loop never terminates — whatever iteration budget the fuel
grants, the loop is still running (first conjunct), instead of failing fast
as the specification requires; for every valid configuration, with step at
least 1, split_text terminates on every input (second conjunct). -/
theorem invalid_overlap_never_terminates :
    (∀ (fuel : Nat) (chunks : List TextChunk),
        split_text_loop 1 1 (pySplitWhitespace "a") chunks 0 fuel = none) ∧
      (∀ (csize cov : Nat) (text : String), cov < csize →
        (split_text csize cov text).isSome = true) := by
  constructor
  · have hw : pySplitWhitespace "a" = ["a"] := by decide
    intro fuel
    induction fuel with
    | zero =>
      intro chunks
      simp [hw, split_text_loop]
    | succ f ihf =>
      intro chunks
      rw [hw] at ihf ⊢
      simpa [split_text_loop] using ihf _
  · intro csize cov text h
    exact split_loop_fuel csize cov _ (by omega) _ [] 0 (by omega)

/-! ## Theorems: vector search -/

theorem argsort_sorted (scores : List ℚ) :
    List.Sorted (fun i j => scores.getD i 0 ≤ scores.getD j 0)
      (argsortAsc scores) := by
  haveI t1 : IsTotal Nat (fun i j => scores.getD i 0 ≤ scores.getD j 0) :=
    ⟨fun a b => le_total _ _⟩
  haveI t2 : IsTrans Nat (fun i j => scores.getD i 0 ≤ scores.getD j 0) :=
    ⟨fun a b c h1 h2 => le_trans h1 h2⟩
  exact List.sorted_insertionSort _ _

/-- C6 counterexample: search with k = 0 over a one-embedding index returns
one result, not at most zero — the Python slice a[-0:] is a[0:], the whole
argsort, so every stored entry comes back. -/
theorem search_k_zero_counterexample :
    (SimpleVectorStore.mk (some [()]) ["a"]).search (fun _ => (1 : ℚ)) 0
        = [("a", (1 : ℚ))] ∧
      ¬ ((SimpleVectorStore.mk (some [()]) ["a"]).search
          (fun _ => (1 : ℚ)) 0).length ≤ 0 := by
  constructor
  · decide
  · decide

/-- C6 amended: for every index state and every k ≥ 1, search returns at most
k results, ordered by descending similarity score (first each later score is
at most each earlier one). For k = 0 the Python slice a[-0:] returns the
whole index instead (see the counterexample). -/
theorem search_at_most_k_descending {E : Type} (store : SimpleVectorStore E)
    (simf : E → ℚ) (k : Nat) (hk : 1 ≤ k) :
    (store.search simf k).length ≤ k ∧
      List.Pairwise (fun a b : String × ℚ => b.2 ≤ a.2) (store.search simf k) := by
  cases hE : store.embeddings with
  | none => simp [SimpleVectorStore.search, hE]
  | some embs =>
    constructor
    · simp only [SimpleVectorStore.search, hE, List.length_map, List.length_reverse]
      rw [pyTakeLast, if_neg (by omega : ¬ k = 0), List.length_drop]
      omega
    · simp only [SimpleVectorStore.search, hE]
      rw [List.pairwise_map, List.pairwise_reverse]
      have hsorted := argsort_sorted (embs.map simf)
      unfold pyTakeLast
      split
      · exact hsorted
      · exact List.Pairwise.sublist (List.drop_sublist _ _) hsorted

theorem search_at_most_k_descending_witness :
    ((SimpleVectorStore.mk (some [(), ()]) ["a", "b"]).search
        (fun _ => (1 : ℚ)) 1).length ≤ 1 ∧
      List.Pairwise (fun a b : String × ℚ => b.2 ≤ a.2)
        ((SimpleVectorStore.mk (some [(), ()]) ["a", "b"]).search
          (fun _ => (1 : ℚ)) 1) :=
  search_at_most_k_descending (SimpleVectorStore.mk (some [(), ()]) ["a", "b"])
    (fun _ => (1 : ℚ)) 1 (by decide)

/-- C7: searching an index that holds zero embeddings (embeddings is still
None) returns the empty sequence for every query scoring function and every
k, and, being a total function of the state, never raises. -/
theorem search_empty_index {E : Type} (chunks : List String) (simf : E → ℚ)
    (k : Nat) :
    (SimpleVectorStore.mk (none : Option (List E)) chunks).search simf k = [] :=
  rfl

/-! ## Theorems: loop controller -/

theorem loop_go_iters_le {σ : Type} (step : Nat → σ → String × σ) :
    ∀ (fuel : Nat) (s : σ) (r : String) (i : Nat),
      (loop_go step s r i fuel).2 ≤ i + fuel := by
  intro fuel
  induction fuel with
  | zero =>
    intro s r i
    simp [loop_go]
  | succ f ihf =>
    intro s r i
    simp only [loop_go]
    split
    · simp
    · have := ihf (step i s).2 (step i s).1 (i + 1)
      omega

theorem loop_go_halts {σ : Type} (step : Nat → σ → String × σ) (S : Nat → σ)
    (hS : ∀ m, S (m + 1) = (step m (S m)).2) (j : Nat)
    (hmark : hasFinalMarker (step j (S j)).1 = true)
    (hbefore : ∀ m, m < j → hasFinalMarker (step m (S m)).1 = false) :
    ∀ (fuel i : Nat) (r : String), i ≤ j → j < i + fuel →
      loop_go step (S i) r i fuel = ((step j (S j)).1, j + 1) := by
  intro fuel
  induction fuel with
  | zero =>
    intro i r h1 h2
    omega
  | succ f ihf =>
    intro i r h1 h2
    simp only [loop_go]
    rcases Nat.eq_or_lt_of_le h1 with heq | hlt
    · subst heq
      rw [if_pos hmark]
    · rw [hbefore i hlt]
      simp only [Bool.false_eq_true, if_false]
      rw [← hS i]
      exact ihf (i + 1) (step i (S i)).1 hlt (by omega)

theorem base_resp_eq_state (chat : Nat → String → String) (m : Nat) :
    chat m (base_state chat m) = base_resp chat m := by
  cases m with
  | zero => rfl
  | succ k => rfl

theorem base_loop_halts (chat : Nat → String → String) (j d : Nat)
    (hj : j < d)
    (hbefore : ∀ m, m < j → hasFinalMarker (base_resp chat m) = false)
    (hmark : hasFinalMarker (base_resp chat j) = true) :
    base_loop chat d = (base_resp chat j, j + 1) := by
  have hS : ∀ m, base_state chat (m + 1)
      = ((fun i r => (chat i r, chat i r)) m (base_state chat m)).2 := by
    intro m
    show base_resp chat m = chat m (base_state chat m)
    exact (base_resp_eq_state chat m).symm
  have h := loop_go_halts (fun i r => (chat i r, chat i r)) (base_state chat) hS j
    (by simpa [base_resp_eq_state] using hmark)
    (fun m hm => by simpa [base_resp_eq_state] using hbefore m hm)
    d 0 "" (Nat.zero_le _) (by omega)
  show loop_go (fun i r => (chat i r, chat i r)) (base_state chat 0) "" 0 d = _
  rw [h]
  simp [base_resp_eq_state]

theorem react_resp_eq_state (observe reflect : Nat → String → String)
    (act : Nat → String → String → String) (m : Nat) :
    react_step observe reflect act m (react_state observe reflect act m)
      = react_resp observe reflect act m := by
  cases m with
  | zero => rfl
  | succ k => rfl

theorem react_loop_halts (observe reflect : Nat → String → String)
    (act : Nat → String → String → String) (j d : Nat) (hj : j < d)
    (hbefore : ∀ m, m < j →
      hasFinalMarker (react_resp observe reflect act m) = false)
    (hmark : hasFinalMarker (react_resp observe reflect act j) = true) :
    react_loop observe reflect act d = (react_resp observe reflect act j, j + 1) := by
  have hS : ∀ m, react_state observe reflect act (m + 1)
      = ((fun i r => (react_step observe reflect act i r,
          react_step observe reflect act i r)) m
          (react_state observe reflect act m)).2 := by
    intro m
    show react_resp observe reflect act m = _
    exact (react_resp_eq_state observe reflect act m).symm
  have h := loop_go_halts (fun i r => (react_step observe reflect act i r,
      react_step observe reflect act i r)) (react_state observe reflect act) hS j
    (by simpa [react_resp_eq_state] using hmark)
    (fun m hm => by simpa [react_resp_eq_state] using hbefore m hm)
    d 0 "" (Nat.zero_le _) (by omega)
  show loop_go _ (react_state observe reflect act 0) "" 0 d = _
  rw [h]
  simp [react_resp_eq_state]

theorem arx_loop_halts (st : ArxStubs) (hu : Bool) (j d : Nat) (hj : j < d)
    (hbefore : ∀ m, m < j → hasFinalMarker (arx_resp st hu m) = false)
    (hmark : hasFinalMarker (arx_resp st hu j) = true) :
    arx_loop st hu d = (arx_resp st hu j, j + 1) := by
  have hS : ∀ m, arx_fb st hu (m + 1)
      = ((fun i fb => (arx_response st i fb, arx_fb_update st hu i fb)) m
          (arx_fb st hu m)).2 := by
    intro m
    rfl
  have h := loop_go_halts (fun i fb => (arx_response st i fb, arx_fb_update st hu i fb))
    (arx_fb st hu) hS j hmark (fun m hm => hbefore m hm)
    d 0 "" (Nat.zero_le _) (by omega)
  exact h

/-- C3: for each of the Base, ReAct and ARX loops under stubbed generators:
the loop never executes more than max_depth iterations (first three
conjuncts); it halts at the first iteration whose checked response contains
the literal marker FINAL RESPONSE: and returns that response, with the
iteration count j + 1 (next three conjuncts); and in particular, when the
checked response contains the marker for the first time on iteration 2 (index
1) with max_depth = 5, the loop performs exactly 2 iterations and returns the
iteration-2 response (last three conjuncts). -/
theorem loops_bounded_and_halt_on_marker :
    (∀ (chat : Nat → String → String) (d : Nat), (base_loop chat d).2 ≤ d) ∧
    (∀ (observe reflect : Nat → String → String)
        (act : Nat → String → String → String) (d : Nat),
      (react_loop observe reflect act d).2 ≤ d) ∧
    (∀ (st : ArxStubs) (hu : Bool) (d : Nat), (arx_loop st hu d).2 ≤ d) ∧
    (∀ (chat : Nat → String → String) (j d : Nat), j < d →
      (∀ m, m < j → hasFinalMarker (base_resp chat m) = false) →
      hasFinalMarker (base_resp chat j) = true →
      base_loop chat d = (base_resp chat j, j + 1)) ∧
    (∀ (observe reflect : Nat → String → String)
        (act : Nat → String → String → String) (j d : Nat), j < d →
      (∀ m, m < j → hasFinalMarker (react_resp observe reflect act m) = false) →
      hasFinalMarker (react_resp observe reflect act j) = true →
      react_loop observe reflect act d = (react_resp observe reflect act j, j + 1)) ∧
    (∀ (st : ArxStubs) (hu : Bool) (j d : Nat), j < d →
      (∀ m, m < j → hasFinalMarker (arx_resp st hu m) = false) →
      hasFinalMarker (arx_resp st hu j) = true →
      arx_loop st hu d = (arx_resp st hu j, j + 1)) ∧
    (∀ chat : Nat → String → String,
      hasFinalMarker (base_resp chat 0) = false →
      hasFinalMarker (base_resp chat 1) = true →
      base_loop chat 5 = (base_resp chat 1, 2)) ∧
    (∀ (observe reflect : Nat → String → String)
        (act : Nat → String → String → String),
      hasFinalMarker (react_resp observe reflect act 0) = false →
      hasFinalMarker (react_resp observe reflect act 1) = true →
      react_loop observe reflect act 5 = (react_resp observe reflect act 1, 2)) ∧
    (∀ (st : ArxStubs) (hu : Bool),
      hasFinalMarker (arx_resp st hu 0) = false →
      hasFinalMarker (arx_resp st hu 1) = true →
      arx_loop st hu 5 = (arx_resp st hu 1, 2)) := by
  have hone : ∀ (j : Nat) (P : Nat → Prop), P 0 → ∀ m, m < 1 → P m := by
    intro j P h0 m hm
    have : m = 0 := by omega
    rw [this]
    exact h0
  refine ⟨?_, ?_, ?_, ?_, ?_, ?_, ?_, ?_, ?_⟩
  · intro chat d
    simpa using loop_go_iters_le (fun i r => (chat i r, chat i r)) d "" "" 0
  · intro observe reflect act d
    simpa using loop_go_iters_le (fun i r => (react_step observe reflect act i r,
      react_step observe reflect act i r)) d "" "" 0
  · intro st hu d
    simpa using loop_go_iters_le
      (fun i fb => (arx_response st i fb, arx_fb_update st hu i fb)) d "" "" 0
  · exact fun chat j d hj hb hm => base_loop_halts chat j d hj hb hm
  · exact fun o rf a j d hj hb hm => react_loop_halts o rf a j d hj hb hm
  · exact fun st hu j d hj hb hm => arx_loop_halts st hu j d hj hb hm
  · intro chat h0 h1
    exact base_loop_halts chat 1 5 (by omega)
      (hone 1 (fun m => hasFinalMarker (base_resp chat m) = false) h0) h1
  · intro o rf a h0 h1
    exact react_loop_halts o rf a 1 5 (by omega)
      (hone 1 (fun m => hasFinalMarker (react_resp o rf a m) = false) h0) h1
  · intro st hu h0 h1
    exact arx_loop_halts st hu 1 5 (by omega)
      (hone 1 (fun m => hasFinalMarker (arx_resp st hu m) = false) h0) h1

end ArxMini
